import Mathlib

/-!
# Verification of the `codechain-primitives` `U256` value type

Shallow embedding of `src/value/U256.ts` (codechain-primitives 0.3.3) together
with the parts of its two runtime dependencies that the class actually calls:

* `bignumber.js` 7.2.1 (default configuration, `BigNumber.DEBUG = false`):
  value representation (NaN, signed infinities, negative zero, finite
  arbitrary-precision decimals modelled as rationals), the constructor's
  string-parsing pipeline, `isInteger`, `isNegative`, `isLessThanOrEqualTo`,
  `toString(16)`;
* `rlp` 2.x (`RLP.encode` for the two input shapes `U256.toEncodeObject`
  produces: the JS number `0` and `0x`-prefixed even-length hex strings).

Buffers are modelled as `List ℕ` of byte values (each `< 256` where it
matters).  JS exceptions are modelled with `Except String`.
-/

set_option maxRecDepth 8000

/-! ## The bignumber.js value model -/

/-- A bignumber.js value: `NaN`, `±Infinity`, negative zero (a finite zero
with sign `-1`, as produced by `new BigNumber("-0")` or `new BigNumber(-0)`),
or an ordinary finite value.  Finite bignumber.js values are decimal
floating-point numbers of unbounded precision; every one of them is a
rational, which is how they are modelled here.  The same type models JS
`number` inputs (every IEEE double is rational; `-0` is kept separate). -/
inductive BigNum where
  | nan
  | inf (neg : Bool)
  | negZero
  | fin (q : ℚ)
deriving DecidableEq, Repr

namespace BigNum

/-- `BigNumber.prototype.isInteger`: finite with no fractional part.
Negative zero has coefficient `[0]`, hence is an integer. -/
def isInteger : BigNum → Bool
  | fin q => q.den = 1
  | negZero => true
  | _ => false

/-- `BigNumber.prototype.isNegative`: the stored sign `s` is `-1`.
`NaN` has `s = null`, so it is not negative; `-0` is negative. -/
def isNegative : BigNum → Bool
  | fin q => q < 0
  | negZero => true
  | inf neg => neg
  | nan => false

/-- Numeric value of a finite bignumber.js value (`-0` collapses to `0`). -/
def val : BigNum → ℚ
  | fin q => q
  | _ => 0

/-- `BigNumber.prototype.isLessThanOrEqualTo`, i.e. `compare(this, n) < 1`.
`compare` returns `null` when either side is `NaN` (so the result is
`false`), treats both zeros as equal, and orders infinities above/below all
finite values. -/
def le (a b : BigNum) : Bool :=
  match a, b with
  | nan, _ => false
  | _, nan => false
  | inf true, _ => true
  | inf false, b => b = inf false
  | _, inf true => false
  | _, inf false => true
  | a, b => val a ≤ val b

/-- The natural-number value of a validated (integral, non-negative)
bignumber.js value; junk elsewhere. -/
def toNat : BigNum → ℕ
  | fin q => q.num.toNat
  | _ => 0

/-- `Number.isInteger` on a JS number modelled as a `BigNum`
(`Number.isInteger(-0)` is `true`; `NaN` and infinities are not integers). -/
def jsIsInteger : BigNum → Bool
  | fin q => q.den = 1
  | negZero => true
  | _ => false

/-- The JS comparison `param >= 0` (`-0 >= 0` is `true`, `NaN >= 0` is
`false`). -/
def jsGe0 : BigNum → Bool
  | fin q => 0 ≤ q
  | negZero => true
  | inf neg => !neg
  | nan => false

end BigNum

/-! ## Hexadecimal rendering of natural numbers

`BigNumber.prototype.toString(16)` and JS `Number.prototype.toString(16)` on a
non-negative integer render the minimal big-endian lowercase hex digits, with
`0` rendered as `"0"`. -/

/-- Minimal big-endian base-16 digit list of a natural number; `[0]` for 0. -/
def natHex (n : ℕ) : List ℕ :=
  if n = 0 then [0] else (Nat.digits 16 n).reverse

/-- Lowercase hexadecimal digit character. -/
def hexDigitChar (d : ℕ) : Char :=
  if d < 10 then Char.ofNat (48 + d) else Char.ofNat (87 + d)

/-- `n.toString(16)` for a natural number. -/
def hexStrOfNat (n : ℕ) : String :=
  ⟨(natHex n).map hexDigitChar⟩

/-! ## The bignumber.js string parser (constructor, default configuration) -/

/-- JS regex whitespace class members relevant to ASCII input (the `\s` class
also contains Unicode space separators, none of which this repository ever
produces). -/
def isJsWs (c : Char) : Bool :=
  c = ' ' || c = '\t' || c = '\n' || c = '\r' || c = '\x0b' || c = '\x0c'

/-- JS regex `\w`: ASCII alphanumerics and underscore. -/
def isWordChar (c : Char) : Bool :=
  (('0' ≤ c && c ≤ '9') || ('a' ≤ c && c ≤ 'z') || ('A' ≤ c && c ≤ 'Z')) || c = '_'

/-- Value of a run of decimal digit characters, most significant first. -/
def decDigitsVal (ds : List Char) : ℕ :=
  ds.foldl (fun a c => 10 * a + (c.toNat - 48)) 0

/-- Parse the optional exponent suffix `e[+-]?digits` (case-insensitive),
which must extend to the end of the string; `[]` means exponent `0`. -/
def scanExp (cs : List Char) : Option ℤ :=
  match cs with
  | [] => some 0
  | e :: rest =>
    if e = 'e' || e = 'E' then
      let p : Bool × List Char :=
        match rest with
        | '-' :: r => (true, r)
        | '+' :: r => (false, r)
        | r => (false, r)
      if p.2 ≠ [] ∧ p.2.all Char.isDigit then
        some (if p.1 then -(decDigitsVal p.2 : ℤ) else (decDigitsVal p.2 : ℤ))
      else none
    else none

/-- The `isNumeric` fast-path regex of the bignumber.js constructor:
`-?(digits(.digits*)?|.digits)(e[+-]?digits)?`, case-insensitive `e`.
Returns (negative sign, integer digits, fraction digits, exponent). -/
def scanDecimal (cs : List Char) : Option (Bool × List Char × List Char × ℤ) :=
  let p : Bool × List Char :=
    match cs with
    | '-' :: r => (true, r)
    | r => (false, r)
  let ip := p.2.takeWhile Char.isDigit
  match p.2.dropWhile Char.isDigit with
  | '.' :: r2 =>
    let fp := r2.takeWhile Char.isDigit
    if ip.isEmpty && fp.isEmpty then none
    else (scanExp (r2.dropWhile Char.isDigit)).map fun e => (p.1, ip, fp, e)
  | rest =>
    if ip.isEmpty then none
    else (scanExp rest).map fun e => (p.1, ip, ([] : List Char), e)

/-- Assemble a decimal parse into a bignumber.js value: the magnitude is
`digits(ip ++ fp) · 10 ^ (e - |fp|)`, built here with `mkRat` to stay inside
kernel-computable rational operations.  A negative sign on a zero magnitude
yields negative zero, exactly as the library stores `s = -1` with
coefficient `[0]`. -/
def decValue (neg : Bool) (ip fp : List Char) (e : ℤ) : BigNum :=
  let t := decDigitsVal (ip ++ fp)
  let d : ℤ := e - fp.length
  let mag : ℚ :=
    if 0 ≤ d then ((t * 10 ^ d.toNat : ℕ) : ℚ) else mkRat t (10 ^ (-d).toNat)
  if neg then (if mag = 0 then .negZero else .fin (-mag)) else .fin mag

/-- Base letter of the prefixes recognised by the `basePrefix` regex
(case-insensitive `x`, `b`, `o`). -/
def baseOfChar (c : Char) : Option ℕ :=
  if c = 'x' || c = 'X' then some 16
  else if c = 'b' || c = 'B' then some 2
  else if c = 'o' || c = 'O' then some 8
  else none

/-- The `basePrefix` regex `(-?)0([xbo])` with lookahead requiring a word
character followed by word-or-dot characters to the end; returns
(negative sign, base, body after the prefix). -/
def splitBasePfx (cs : List Char) : Option (Bool × ℕ × List Char) :=
  let p : Bool × List Char :=
    match cs with
    | '-' :: r => (true, r)
    | r => (false, r)
  match p.2 with
  | '0' :: c :: body =>
    match baseOfChar c with
    | some base =>
      match body with
      | [] => none
      | b0 :: brest =>
        if isWordChar b0 && brest.all (fun x => isWordChar x || x = '.') then
          some (p.1, base, body)
        else none
    | none => none
  | _ => none

/-- Index of a character in the lowercase digit alphabet
`0123456789abcdefghijklmnopqrstuvwxyz` restricted to its first `base`
characters, as used to validate `BigNumber(value, base)` input. -/
def alphaVal (base : ℕ) (c : Char) : Option ℕ :=
  let v : Option ℕ :=
    if '0' ≤ c ∧ c ≤ '9' then some (c.toNat - 48)
    else if 'a' ≤ c ∧ c ≤ 'z' then some (c.toNat - 87)
    else none
  match v with
  | some d => if d < base then some d else none
  | none => none

/-- Value of a base-`base` digit list, most significant first. -/
def baseDigitsVal (base : ℕ) (ds : List ℕ) : ℕ :=
  ds.foldl (fun a d => base * a + d) 0

/-- Validate and evaluate the digit body of a base-prefixed literal: digits
from the lowercase alphabet, at most one dot, dot not leading, mirroring the
validation loop of the `BigNumber(value, base)` branch.  The fractional part
is evaluated exactly here; bignumber.js rounds long fractions to its working
precision, a difference that cannot affect integer inputs (the only ones this
repository produces or whose acceptance the claims depend on). -/
def scanBase (base : ℕ) (cs : List Char) : Option ℚ :=
  let ipc := cs.takeWhile (fun c => (alphaVal base c).isSome)
  let ip := ipc.filterMap (alphaVal base)
  match cs.dropWhile (fun c => (alphaVal base c).isSome) with
  | [] => if ipc.isEmpty then none else some (baseDigitsVal base ip : ℚ)
  | '.' :: r =>
    if ipc.isEmpty then none
    else
      let fpc := r.takeWhile (fun c => (alphaVal base c).isSome)
      if (r.dropWhile (fun c => (alphaVal base c).isSome)).isEmpty then
        some (mkRat
          (baseDigitsVal base ip * base ^ fpc.length +
            baseDigitsVal base (fpc.filterMap (alphaVal base)) : ℕ)
          (base ^ fpc.length))
      else none
  | _ => none

/-- The case-change retry of the validation loop: a string that fails
validation is retried lowercased when it contains no lowercase letters
(allowing e.g. hexadecimal `FF`), or uppercased when it contains no uppercase
letters; mixed-case digit strings are invalid. -/
def scanBaseCased (base : ℕ) (cs : List Char) : Option ℚ :=
  match scanBase base cs with
  | some v => some v
  | none =>
    if cs.all (fun c => c.toUpper = c) then scanBase base (cs.map Char.toLower)
    else if cs.all (fun c => c.toLower = c) then scanBase base (cs.map Char.toUpper)
    else none

/-- Sign assembly for a base-prefixed literal (negative zero as for decimal). -/
def baseNum (neg : Bool) (base : ℕ) (body : List Char) : Option BigNum :=
  (scanBaseCased base body).map fun v =>
    if neg then (if v = 0 then .negZero else .fin (-v)) else .fin v

/-- Drop trailing JS whitespace (the `\s+$` alternative). -/
def dropTrailingWs (cs : List Char) : List Char :=
  (cs.reverse.dropWhile isJsWs).reverse

/-- The `whitespaceOrPlus` stripping of `parseNumeric`: leading whitespace
(together with one following `+` sign when a word character or dot follows
it) and trailing whitespace are removed. -/
def stripWsPlus (cs : List Char) : List Char :=
  let l := cs.dropWhile isJsWs
  let l2 :=
    match l with
    | '+' :: c :: r => if isWordChar c || c = '.' then c :: r else l
    | _ => l
  dropTrailingWs l2

/-- `Infinity` / `-Infinity` literal (after stripping). -/
def isInfLit (cs : List Char) : Option Bool :=
  if cs = "Infinity".data then some false
  else if cs = "-Infinity".data then some true
  else none

/-- `NaN` / `-NaN` literal (after stripping). -/
def isNaNLit (cs : List Char) : Bool :=
  cs = "NaN".data || cs = "-NaN".data

/-- One pass of the bignumber.js constructor's string pipeline: the
`isNumeric` fast path, then `parseNumeric` (strip whitespace / leading plus,
`Infinity` and `NaN` literals, `0x`/`0b`/`0o` base prefixes with validated
digit bodies).  `none` marks the Not-a-number branch, where the library
throws if `BigNumber.DEBUG` is set and yields `NaN` otherwise.  When only
stripping changed the string, `parseNumeric` re-enters the constructor on the
stripped string; since stripping is idempotent and the other branches were
already decided on the stripped string, that recursion amounts to one more
`isNumeric` test, inlined here as the final `scanDecimal`. -/
def parseOutcome (cs : List Char) : Option BigNum :=
  match scanDecimal cs with
  | some (neg, ip, fp, e) => some (decValue neg ip fp e)
  | none =>
    let s := stripWsPlus cs
    match isInfLit s with
    | some b => some (.inf b)
    | none =>
      if isNaNLit s then some .nan
      else
        match splitBasePfx s with
        | some (neg, base, body) => baseNum neg base body
        | none =>
          match scanDecimal s with
          | some (neg, ip, fp, e) => some (decValue neg ip fp e)
          | none => none

/-- `BigNumber.DEBUG` — `false` by default, never set by this repository. -/
def DEBUG : Bool := false

/-- `new BigNumber(string)` under the default configuration: invalid input
yields `NaN`. -/
def parseBigChars (cs : List Char) : BigNum :=
  (parseOutcome cs).getD .nan

/-- `new BigNumber(string)` on a Lean `String`. -/
def parseBigStr (s : String) : BigNum := parseBigChars s.data

/-- Exception-aware `new BigNumber(string)`: the single throw site on this
path is the `DEBUG`-guarded Not-a-number branch. -/
def parseBigStrE (s : String) : Except String BigNum :=
  match parseOutcome s.data with
  | some b => Except.ok b
  | none =>
    if DEBUG then Except.error "BigNumber Error Not a number"
    else Except.ok BigNum.nan

/-! ## The U256 class -/

/-- `U256.MAX_VALUE = new BigNumber("0xFFF…F")` (64 `F` digits). -/
def MAX_VALUE : BigNum :=
  parseBigStr "0xFFFFFFFFFFFFFFFFFFFFFFFFFFFFFFFFFFFFFFFFFFFFFFFFFFFFFFFFFFFFFFFF"

/-- A constructed `U256` instance.  The stored `BigNumber` is guaranteed
integral and non-negative by the constructor, so its value is carried as a
natural number; instances are immutable. -/
structure U256 where
  value : ℕ
deriving DecidableEq, Repr

/-- The union `U256 | string | number | BigNumber` accepted by `check`,
`ensure` and (minus the `U256` arm) the constructor.  JS numbers are
modelled by `BigNum` values as well: every finite double is a rational, and
`new BigNumber(number)` is modelled as value-preserving — the library
actually parses `String(number)`, whose shortest-round-trip rounding
preserves every predicate the class applies (sign, integrality, and
comparison against `2^256`, the last checked by hand at the only borderline
double `2^256`). -/
inductive Param where
  | u256 (u : U256)
  | str (s : String)
  | num (n : BigNum)
  | big (b : BigNum)

/-- `new BigNumber(value)` on a constructor argument.  Passing a `U256`
instance itself is not in the constructor's declared type; bignumber.js
stringifies such an object to `"[object Object]"` and yields `NaN`. -/
def toBigNumber : Param → BigNum
  | .u256 _ => .nan
  | .str s => parseBigStr s
  | .num n => n
  | .big b => b

/-- The `U256` constructor: parse, then reject non-integral or negative
values (including `-0`, whose bignumber.js sign is `-1`), then reject values
whose hexadecimal rendering exceeds 64 digits.  The interpolated original
messages are modelled by their constant prefixes. -/
def mkU256 (v : Param) : Except String U256 :=
  let value := toBigNumber v
  if !value.isInteger || value.isNegative then
    Except.error "U256 must be a positive integer"
  else if (natHex value.toNat).length > 64 then
    Except.error "Given value is out of range for U256"
  else Except.ok ⟨value.toNat⟩

/-- `U256.checkString`. -/
def checkString (s : String) : Bool :=
  let num := parseBigStr s
  num.isInteger && !num.isNegative && num.le MAX_VALUE

/-- `U256.check`. -/
def check : Param → Bool
  | .u256 _ => true
  | .big b => b.isInteger && !b.isNegative && b.le MAX_VALUE
  | .num n => n.jsIsInteger && n.jsGe0
  | .str s => checkString s

/-- `U256.check` with the possible exception sites made explicit: the only
one on any path is the `DEBUG`-guarded branch inside `new BigNumber(string)`
reached from `checkString`. -/
def checkE : Param → Except String Bool
  | .u256 _ => Except.ok true
  | .big b => Except.ok (b.isInteger && !b.isNegative && b.le MAX_VALUE)
  | .num n => Except.ok (n.jsIsInteger && n.jsGe0)
  | .str s => do
    let num ← parseBigStrE s
    Except.ok (num.isInteger && !num.isNegative && num.le MAX_VALUE)

/-- `U256.ensure`: pass a `U256` through, construct otherwise. -/
def ensure (p : Param) : Except String U256 :=
  match p with
  | .u256 u => Except.ok u
  | p => mkU256 p

/-- `U256.prototype.increase`: `new U256(this.value.plus(1))`. -/
def increase (u : U256) : Except String U256 :=
  mkU256 (.big (.fin ((u.value + 1 : ℕ) : ℚ)))

/-! ## The RLP encoder (rlp 2.x) for the shapes `toEncodeObject` produces -/

/-- The string-or-number result of `U256.prototype.toEncodeObject`. -/
inductive EncObj where
  | num (n : ℕ)
  | str (s : String)

/-- `U256.prototype.toEncodeObject`: hex-render the value; return the JS
number `0` for `"0"` (the commented workaround keeping `RLP.encode` from
producing the byte `00`), otherwise the `0x`-prefixed hex string padded to an
even digit count with one leading `0` nibble. -/
def toEncodeObject (u : U256) : EncObj :=
  let hex := hexStrOfNat u.value
  if hex = "0" then .num 0
  else if hex.length % 2 = 0 then .str ("0x" ++ hex)
  else .str ("0x0" ++ hex)

/-- Hex value of one character, both cases (Buffer hex decoding). -/
def hexCharVal (c : Char) : Option ℕ :=
  if '0' ≤ c ∧ c ≤ '9' then some (c.toNat - 48)
  else if 'a' ≤ c ∧ c ≤ 'f' then some (c.toNat - 87)
  else if 'A' ≤ c ∧ c ≤ 'F' then some (c.toNat - 55)
  else none

/-- `Buffer.from(hexString, "hex")`: consume two hex characters per byte,
truncating at the first character pair that is not valid hex. -/
def hexCharsToBytes : List Char → List ℕ
  | c1 :: c2 :: rest =>
    match hexCharVal c1, hexCharVal c2 with
    | some a, some b => (16 * a + b) :: hexCharsToBytes rest
    | _, _ => []
  | _ => []

/-- `padToEven`: prefix one `0` character when the length is odd. -/
def padToEven (cs : List Char) : List Char :=
  if cs.length % 2 = 1 then '0' :: cs else cs

/-- rlp's `intToHex`: even-length hex rendering of a non-negative integer. -/
def intToHexChars (n : ℕ) : List Char :=
  padToEven ((natHex n).map hexDigitChar)

/-- rlp's `intToBuffer`. -/
def intToBuffer (n : ℕ) : List ℕ :=
  hexCharsToBytes (intToHexChars n)

/-- rlp's `toBuffer` restricted to the two shapes `toEncodeObject` yields:
the falsy number `0` becomes the empty buffer; a `0x`-prefixed string is
hex-decoded after `padToEven`; any other string is UTF-8 encoded (modelled
for the ASCII range only — unreachable from `toEncodeObject`). -/
def toBuffer : EncObj → List ℕ
  | .num n => if n = 0 then [] else intToBuffer n
  | .str s =>
    match s.data with
    | '0' :: 'x' :: rest => hexCharsToBytes (padToEven rest)
    | cs => cs.map fun c => c.toNat % 256

/-- rlp's `encodeLength`. -/
def encodeLength (len offset : ℕ) : List ℕ :=
  if len < 56 then [len + offset]
  else
    let hexLength := intToHexChars len
    let lLength := hexLength.length / 2
    hexCharsToBytes (intToHexChars (offset + 55 + lLength) ++ hexLength)

/-- `RLP.encode` on a single (non-list) item: a one-byte buffer below `0x80`
is its own encoding; otherwise the length prefix is prepended. -/
def rlpEncode (e : EncObj) : List ℕ :=
  let input := toBuffer e
  match input with
  | [b] => if b < 128 then [b] else encodeLength 1 128 ++ [b]
  | _ => encodeLength input.length 128 ++ input

/-- `U256.prototype.rlpBytes`. -/
def rlpBytes (u : U256) : List ℕ :=
  rlpEncode (toEncodeObject u)

/-! ## The strict decoder `U256.fromBytes` -/

/-- One payload byte rendered as its hex digits, left-padded with `"0"` to
two characters when below `0x10` (the arrow function inside `fromBytes`). -/
def byteToHexChars (b : ℕ) : List Char :=
  if b < 16 then '0' :: (natHex b).map hexDigitChar
  else (natHex b).map hexDigitChar

/-- The string `"0x" + bytes.map(…).join("")` built by `fromBytes`. -/
def hexStringOfBytes (bytes : List ℕ) : String :=
  ⟨'0' :: 'x' :: (bytes.map byteToHexChars).flatten⟩

/-- `U256.fromBytes`: shift the first byte, subtract `0x80` to get the
declared length (a JS subtraction that may go negative), reject lengths
above 32 and payload-length mismatches, decode length 0 as `new U256(0)`,
otherwise construct from the concatenated hex payload.  An empty buffer
makes `shift()` return `undefined`, so the declared length is `NaN`, which
fails the strict equality check — modelled as the mismatch error. -/
def fromBytes (buffer : List ℕ) : Except String U256 :=
  match buffer with
  | [] => Except.error "Invalid RLP for U256"
  | first :: bytes =>
    if (first : ℤ) - 128 > 32 then
      Except.error "Buffer for U256 must be less than or equal to 32"
    else if (bytes.length : ℤ) ≠ (first : ℤ) - 128 then
      Except.error "Invalid RLP for U256"
    else if (first : ℤ) - 128 = 0 then
      mkU256 (.num (.fin 0))
    else
      mkU256 (.str (hexStringOfBytes bytes))

/-! ## Helper definitions and lemmas -/

/-- Big-endian byte value: the number denoted by base-16 parsing of the
concatenation of the two-hex-digit renderings of the bytes — the value
`fromBytes` assigns to a payload. -/
def beVal (bs : List ℕ) : ℕ :=
  bs.foldl (fun a b => 256 * a + b) 0

theorem natHex_zero : natHex 0 = [0] := rfl

theorem natHex_of_ne_zero {n : ℕ} (h : n ≠ 0) :
    natHex n = (Nat.digits 16 n).reverse := if_neg h

theorem natHex_small {n : ℕ} (h1 : n ≠ 0) (h2 : n < 16) : natHex n = [n] := by
  rw [natHex_of_ne_zero h1, Nat.digits_of_lt 16 n h1 h2, List.reverse_singleton]

theorem natHex_byte {b : ℕ} (h1 : 16 ≤ b) (h2 : b < 256) :
    natHex b = [b / 16, b % 16] := by
  have hb0 : b ≠ 0 := by omega
  have hq0 : b / 16 ≠ 0 := by omega
  have hqlt : b / 16 < 16 := by omega
  rw [natHex_of_ne_zero hb0,
    Nat.digits_def' (b := 16) (by norm_num) (Nat.pos_of_ne_zero hb0),
    Nat.digits_of_lt 16 (b / 16) hq0 hqlt]
  rfl

theorem natHex_ne_nil (n : ℕ) : natHex n ≠ [] := by
  rcases eq_or_ne n 0 with rfl | h
  · simp [natHex_zero]
  · rw [natHex_of_ne_zero h]
    simpa using Nat.digits_ne_nil_iff_ne_zero.mpr h

theorem natHex_digit_lt {n d : ℕ} (hd : d ∈ natHex n) : d < 16 := by
  rcases eq_or_ne n 0 with rfl | h
  · rw [natHex_zero] at hd
    simp at hd
    omega
  · rw [natHex_of_ne_zero h, List.mem_reverse] at hd
    exact Nat.digits_lt_base (by norm_num) hd

/-- The 64-hex-digit bound of the constructor is exactly the `2 ^ 256` range
bound. -/
theorem natHex_len_le_iff {n k : ℕ} (hk : 0 < k) :
    ((natHex n).length ≤ k ↔ n < 16 ^ k) := by
  rcases eq_or_ne n 0 with rfl | hn
  · simp only [natHex_zero, List.length_singleton]
    exact iff_of_true hk (pow_pos (by norm_num) k)
  · rw [natHex_of_ne_zero hn, List.length_reverse,
      Nat.digits_len 16 n (by norm_num) hn,
      Nat.lt_pow_iff_log_lt (by norm_num) hn]
    omega

/-- The constructor succeeds exactly on parses that are integral,
non-negative, and below `2 ^ 256`, and then stores the parsed value. -/
theorem mkU256_eq_ok_iff (v : Param) (u : U256) :
    mkU256 v = Except.ok u ↔
      (toBigNumber v).isInteger = true ∧ (toBigNumber v).isNegative = false ∧
        (toBigNumber v).toNat < 2 ^ 256 ∧ u = ⟨(toBigNumber v).toNat⟩ := by
  have hlen : ((natHex (toBigNumber v).toNat).length ≤ 64 ↔
      (toBigNumber v).toNat < 2 ^ 256) := by
    have h := @natHex_len_le_iff ((toBigNumber v).toNat) 64 (by norm_num)
    rwa [show (16 : ℕ) ^ 64 = 2 ^ 256 by norm_num] at h
  cases hI : (toBigNumber v).isInteger with
  | false => simp [mkU256, hI]
  | true =>
    cases hN : (toBigNumber v).isNegative with
    | true => simp [mkU256, hI, hN]
    | false =>
      by_cases h2 : (natHex (toBigNumber v).toNat).length > 64
      · have hbig : ¬(toBigNumber v).toNat < 2 ^ 256 := by
          intro hcon
          exact absurd (hlen.mpr hcon) (by omega)
        norm_num at hbig
        simp [mkU256, hI, hN, h2, hbig]
      · have hv : (toBigNumber v).toNat < 2 ^ 256 := hlen.mp (by omega)
        have hok : mkU256 v = Except.ok ⟨(toBigNumber v).toNat⟩ := by
          unfold mkU256
          rw [if_neg (by simp [hI, hN]), if_neg h2]
        rw [hok]
        constructor
        · intro h
          have he : (⟨(toBigNumber v).toNat⟩ : U256) = u := (Except.ok.injEq _ _).mp h
          exact ⟨rfl, rfl, hv, he.symm⟩
        · rintro ⟨-, -, -, rfl⟩
          rfl

/-- Failure of the first constructor guard. -/
theorem mkU256_err_nonint (v : Param)
    (h : (!(toBigNumber v).isInteger || (toBigNumber v).isNegative) = true) :
    mkU256 v = Except.error "U256 must be a positive integer" := by
  unfold mkU256
  rw [if_pos h]

/-- Failure of the range guard. -/
theorem mkU256_err_range (v : Param) (hI : (toBigNumber v).isInteger = true)
    (hN : (toBigNumber v).isNegative = false)
    (hR : 2 ^ 256 ≤ (toBigNumber v).toNat) :
    mkU256 v = Except.error "Given value is out of range for U256" := by
  have hlen : ¬(natHex (toBigNumber v).toNat).length ≤ 64 := by
    intro hcon
    have h := (@natHex_len_le_iff ((toBigNumber v).toNat) 64 (by norm_num)).mp hcon
    rw [show (16 : ℕ) ^ 64 = 2 ^ 256 by norm_num] at h
    omega
  unfold mkU256
  rw [if_neg (by simp [hI, hN]), if_pos (by omega)]

/-- `U256.MAX_VALUE` denotes `2 ^ 256 - 1`. -/
theorem MAX_VALUE_eq : MAX_VALUE = BigNum.fin ((2 ^ 256 - 1 : ℕ) : ℚ) := by decide

theorem le_fin_max (q : ℚ) :
    BigNum.le (BigNum.fin q) MAX_VALUE = decide (q ≤ ((2 ^ 256 - 1 : ℕ) : ℚ)) := by
  rw [MAX_VALUE_eq]
  rfl

/-- For an integral non-negative rational, being at most `MAX_VALUE` is the
same as the stored natural value being below `2 ^ 256`. -/
theorem fin_le_max_iff {q : ℚ} (hden : q.den = 1) (hnn : ¬q < 0) :
    (q ≤ ((2 ^ 256 - 1 : ℕ) : ℚ) ↔ q.num.toNat < 2 ^ 256) := by
  have hq : (q.num : ℚ) = q := (Rat.den_eq_one_iff q).mp hden
  have hnum : 0 ≤ q.num := Rat.num_nonneg.mpr (le_of_not_lt hnn)
  constructor
  · intro hle
    have h1 : (q.num : ℚ) ≤ ((2 ^ 256 - 1 : ℕ) : ℚ) := by rw [hq]; exact hle
    have h2 : q.num ≤ ((2 ^ 256 - 1 : ℕ) : ℤ) := by exact_mod_cast h1
    omega
  · intro hlt
    have h2 : q.num ≤ ((2 ^ 256 - 1 : ℕ) : ℤ) := by omega
    calc q = (q.num : ℚ) := hq.symm
    _ ≤ ((2 ^ 256 - 1 : ℕ) : ℚ) := by exact_mod_cast h2

/-- Pointwise facts about the sixteen lowercase hex digit characters. -/
theorem hexDigitChar_facts :
    ∀ d : ℕ, d < 16 →
      alphaVal 16 (hexDigitChar d) = some d ∧
      isWordChar (hexDigitChar d) = true ∧
      isJsWs (hexDigitChar d) = false := by decide

/-- `fromBytes`'s per-byte rendering always yields the two hex digits of the
byte. -/
theorem byteToHexChars_eq {b : ℕ} (hb : b < 256) :
    byteToHexChars b = [hexDigitChar (b / 16), hexDigitChar (b % 16)] := by
  by_cases h : b < 16
  · rcases eq_or_ne b 0 with rfl | h0
    · rfl
    · rw [byteToHexChars, if_pos h, natHex_small h0 h, Nat.div_eq_of_lt h,
        Nat.mod_eq_of_lt h]
      rfl
  · rw [byteToHexChars, if_neg h, natHex_byte (by omega) hb]
    rfl

/-- Every character of the payload hex string is a lowercase hex digit. -/
theorem mem_hexChars {bytes : List ℕ} (h : ∀ b ∈ bytes, b < 256) {c : Char}
    (hc : c ∈ (bytes.map byteToHexChars).flatten) :
    ∃ d, d < 16 ∧ c = hexDigitChar d := by
  rw [List.mem_flatten] at hc
  obtain ⟨l, hl, hcl⟩ := hc
  rw [List.mem_map] at hl
  obtain ⟨b, hb, rfl⟩ := hl
  have hb2 : b < 256 := h b hb
  rw [byteToHexChars_eq hb2] at hcl
  simp only [List.mem_cons, List.not_mem_nil, or_false] at hcl
  rcases hcl with rfl | rfl
  · exact ⟨b / 16, by omega, rfl⟩
  · exact ⟨b % 16, by omega, rfl⟩

/-- A nonempty payload renders to a nonempty hex string. -/
theorem hexChars_ne_nil {bytes : List ℕ} (h : ∀ b ∈ bytes, b < 256)
    (hne : bytes ≠ []) :
    (bytes.map byteToHexChars).flatten ≠ [] := by
  rcases bytes with _ | ⟨b, bs⟩
  · exact absurd rfl hne
  · have hb : b < 256 := h b (by simp)
    simp [byteToHexChars_eq hb]

/-- Folding the hex digits of the payload two at a time in base 16 is folding
the payload bytes in base 256. -/
theorem fold16_hexChars (bytes : List ℕ) (h : ∀ b ∈ bytes, b < 256) (a : ℕ) :
    (((bytes.map byteToHexChars).flatten).filterMap (alphaVal 16)).foldl
        (fun x d => 16 * x + d) a =
      bytes.foldl (fun x b => 256 * x + b) a := by
  induction bytes generalizing a with
  | nil => rfl
  | cons b bs ih =>
    have hb : b < 256 := h b (by simp)
    have h1 : ∀ x ∈ bs, x < 256 := fun x hx => h x (by simp [hx])
    have e1 : List.filterMap (alphaVal 16)
        [hexDigitChar (b / 16), hexDigitChar (b % 16)] = [b / 16, b % 16] := by
      have f1 := (hexDigitChar_facts (b / 16) (by omega)).1
      have f2 := (hexDigitChar_facts (b % 16) (by omega)).1
      simp [List.filterMap_cons, f1, f2]
    simp only [List.map_cons, List.flatten_cons, List.filterMap_append,
      List.foldl_append, byteToHexChars_eq hb, e1, List.foldl_cons,
      List.foldl_nil]
    rw [show 16 * (16 * a + b / 16) + b % 16 = 256 * a + b by omega]
    exact ih h1 (256 * a + b)

/-- Base-16 validation and evaluation of the payload hex string succeeds and
denotes the big-endian byte value. -/
theorem scanBase_hexChars (bytes : List ℕ) (h : ∀ b ∈ bytes, b < 256)
    (hne : bytes ≠ []) :
    scanBase 16 ((bytes.map byteToHexChars).flatten) =
      some ((beVal bytes : ℕ) : ℚ) := by
  have hall : ∀ c ∈ (bytes.map byteToHexChars).flatten,
      ((alphaVal 16 c).isSome = true) := by
    intro c hc
    obtain ⟨d, hd, rfl⟩ := mem_hexChars h hc
    rw [(hexDigitChar_facts d hd).1]
    rfl
  have htake : ((bytes.map byteToHexChars).flatten).takeWhile
      (fun c => (alphaVal 16 c).isSome) = (bytes.map byteToHexChars).flatten :=
    List.takeWhile_eq_self_iff.mpr hall
  have hdrop : ((bytes.map byteToHexChars).flatten).dropWhile
      (fun c => (alphaVal 16 c).isSome) = [] :=
    List.dropWhile_eq_nil_iff.mpr hall
  have hval : baseDigitsVal 16
      (((bytes.map byteToHexChars).flatten).filterMap (alphaVal 16)) =
      beVal bytes := fold16_hexChars bytes h 0
  unfold scanBase
  rw [hdrop, htake]
  show (if ((bytes.map byteToHexChars).flatten).isEmpty = true then
      (none : Option ℚ)
    else some ((baseDigitsVal 16
        (((bytes.map byteToHexChars).flatten).filterMap (alphaVal 16)) : ℕ) : ℚ)) =
    some ((beVal bytes : ℕ) : ℚ)
  rw [if_neg (by simp [List.isEmpty_iff, hexChars_ne_nil h hne]), hval]

/-- The constructor's parse of the hex string `fromBytes` builds denotes the
big-endian byte value of the payload. -/
theorem parse_hexStringOfBytes (bytes : List ℕ) (h : ∀ b ∈ bytes, b < 256)
    (hne : bytes ≠ []) :
    parseBigStr (hexStringOfBytes bytes) = BigNum.fin ((beVal bytes : ℕ) : ℚ) := by
  have hHne : (bytes.map byteToHexChars).flatten ≠ [] := hexChars_ne_nil h hne
  have hmem : ∀ c ∈ (bytes.map byteToHexChars).flatten,
      ∃ d, d < 16 ∧ c = hexDigitChar d := fun c hc => mem_hexChars h hc
  have hsd : scanDecimal ('0' :: 'x' :: (bytes.map byteToHexChars).flatten) =
      none := rfl
  have hinf : isInfLit ('0' :: 'x' :: (bytes.map byteToHexChars).flatten) =
      none := rfl
  have hnan : isNaNLit ('0' :: 'x' :: (bytes.map byteToHexChars).flatten) =
      false := rfl
  have hstrip : stripWsPlus ('0' :: 'x' :: (bytes.map byteToHexChars).flatten) =
      '0' :: 'x' :: (bytes.map byteToHexChars).flatten := by
    show dropTrailingWs ('0' :: 'x' :: (bytes.map byteToHexChars).flatten) = _
    unfold dropTrailingWs
    obtain ⟨c0, t, hrev⟩ : ∃ c0 t,
        ('0' :: 'x' :: (bytes.map byteToHexChars).flatten).reverse = c0 :: t := by
      rcases hr : ('0' :: 'x' :: (bytes.map byteToHexChars).flatten).reverse with
        _ | ⟨c0, t⟩
      · have hlen := congrArg List.length hr
        simp at hlen
      · exact ⟨c0, t, rfl⟩
    have hc0 : c0 ∈ '0' :: 'x' :: (bytes.map byteToHexChars).flatten := by
      rw [← List.mem_reverse, hrev]
      simp
    have hc0ws : isJsWs c0 = false := by
      simp only [List.mem_cons] at hc0
      rcases hc0 with rfl | rfl | hc0
      · rfl
      · rfl
      · obtain ⟨d, hd, rfl⟩ := hmem c0 hc0
        exact (hexDigitChar_facts d hd).2.2
    rw [hrev, List.dropWhile_cons, hc0ws]
    simp only [Bool.false_eq_true, if_false, ← hrev, List.reverse_reverse]
  have hsplit : splitBasePfx ('0' :: 'x' :: (bytes.map byteToHexChars).flatten) =
      some (false, 16, (bytes.map byteToHexChars).flatten) := by
    obtain ⟨c1, t1, hH1⟩ : ∃ c1 t1,
        (bytes.map byteToHexChars).flatten = c1 :: t1 := by
      rcases hflat : (bytes.map byteToHexChars).flatten with _ | ⟨c1, t1⟩
      · exact absurd hflat hHne
      · exact ⟨c1, t1, rfl⟩
    have hw1 : isWordChar c1 = true := by
      obtain ⟨d, hd, rfl⟩ := hmem c1 (by rw [hH1]; simp)
      exact (hexDigitChar_facts d hd).2.1
    have hall : t1.all (fun x => isWordChar x || x = '.') = true := by
      rw [List.all_eq_true]
      intro x hx
      obtain ⟨d, hd, rfl⟩ := hmem x (by rw [hH1]; simp [hx])
      simp [(hexDigitChar_facts d hd).2.1]
    rw [hH1]
    unfold splitBasePfx
    simp [baseOfChar, hw1, hall]
  have houtcome : parseOutcome
      ('0' :: 'x' :: (bytes.map byteToHexChars).flatten) =
      some (BigNum.fin ((beVal bytes : ℕ) : ℚ)) := by
    unfold parseOutcome
    rw [hsd]
    simp only [hstrip, hinf, hnan, hsplit, Bool.false_eq_true, if_false]
    show baseNum false 16 ((bytes.map byteToHexChars).flatten) = _
    unfold baseNum scanBaseCased
    rw [scanBase_hexChars bytes h hne]
    rfl
  show (parseOutcome (hexStringOfBytes bytes).data).getD BigNum.nan = _
  rw [show (hexStringOfBytes bytes).data =
    '0' :: 'x' :: (bytes.map byteToHexChars).flatten from rfl, houtcome]
  rfl

theorem foldl_byteVal_lt (bytes : List ℕ) (h : ∀ b ∈ bytes, b < 256) (a : ℕ) :
    bytes.foldl (fun x b => 256 * x + b) a < 256 ^ bytes.length * (a + 1) := by
  induction bytes generalizing a with
  | nil => simp
  | cons b bs ih =>
    have hb : b < 256 := h b (by simp)
    have h1 : ∀ x ∈ bs, x < 256 := fun x hx => h x (by simp [hx])
    have step := ih h1 (256 * a + b)
    have grow : 256 ^ bs.length * (256 * a + b + 1) ≤ 256 ^ (bs.length + 1) * (a + 1) := by
      have hle : 256 * a + b + 1 ≤ 256 * (a + 1) := by omega
      calc 256 ^ bs.length * (256 * a + b + 1)
          ≤ 256 ^ bs.length * (256 * (a + 1)) := Nat.mul_le_mul_left _ hle
      _ = 256 ^ (bs.length + 1) * (a + 1) := by ring
    calc bs.foldl (fun x b => 256 * x + b) (256 * a + b)
        < 256 ^ bs.length * (256 * a + b + 1) := step
    _ ≤ 256 ^ (bs.length + 1) * (a + 1) := grow
    _ = 256 ^ (b :: bs).length * (a + 1) := by simp

/-- A payload of at most 32 bytes denotes a value below `2 ^ 256`. -/
theorem beVal_lt (bytes : List ℕ) (h : ∀ b ∈ bytes, b < 256)
    (h32 : bytes.length ≤ 32) : beVal bytes < 2 ^ 256 := by
  have h1 := foldl_byteVal_lt bytes h 0
  have h2 : (256 : ℕ) ^ bytes.length ≤ 256 ^ 32 :=
    Nat.pow_le_pow_right (by norm_num) h32
  have h3 : (256 : ℕ) ^ 32 = 2 ^ 256 := by norm_num
  calc beVal bytes < 256 ^ bytes.length * (0 + 1) := h1
  _ = 256 ^ bytes.length := by ring
  _ ≤ 2 ^ 256 := by omega

/-- Success path of `fromBytes`: when the length checks pass with a nonempty
payload of bytes, the result holds the big-endian payload value. -/
theorem fromBytes_ok (first : ℕ) (bytes : List ℕ) (h256 : ∀ b ∈ bytes, b < 256)
    (hne : bytes ≠ []) (hlen : (bytes.length : ℤ) = (first : ℤ) - 128)
    (h32 : bytes.length ≤ 32) :
    fromBytes (first :: bytes) = Except.ok ⟨beVal bytes⟩ := by
  have hlpos : 0 < bytes.length := List.length_pos.mpr hne
  have hparse : toBigNumber (Param.str (hexStringOfBytes bytes)) =
      BigNum.fin ((beVal bytes : ℕ) : ℚ) := parse_hexStringOfBytes bytes h256 hne
  have hmk : mkU256 (Param.str (hexStringOfBytes bytes)) =
      Except.ok ⟨beVal bytes⟩ := by
    rw [mkU256_eq_ok_iff, hparse]
    refine ⟨rfl, ?_, ?_, ?_⟩
    · simp [BigNum.isNegative]
    · simp only [BigNum.toNat, Rat.num_natCast, Int.toNat_natCast]
      exact beVal_lt bytes h256 h32
    · simp [BigNum.toNat]
  simp only [fromBytes]
  rw [if_neg (by omega), if_neg (by omega), if_neg (by omega)]
  exact hmk

theorem rlpBytes_zero : rlpBytes ⟨0⟩ = [128] := rfl

theorem rlpBytes_one : rlpBytes ⟨1⟩ = [1] := by
  have h2 : toEncodeObject ⟨1⟩ = EncObj.str "0x01" := by
    unfold toEncodeObject hexStrOfNat
    rw [natHex_small one_ne_zero (by norm_num)]
    rfl
  show rlpEncode (toEncodeObject ⟨1⟩) = [1]
  rw [h2]
  decide

/-- `check` reaches no active throw site under the default configuration. -/
theorem checkE_eq_ok (p : Param) : checkE p = Except.ok (check p) := by
  cases p with
  | u256 u => rfl
  | big b => rfl
  | num n => rfl
  | str s =>
    show Except.bind (parseBigStrE s) _ = _
    unfold parseBigStrE
    cases hout : parseOutcome s.data with
    | some b =>
      show Except.ok (b.isInteger && !b.isNegative && b.le MAX_VALUE) = _
      simp [check, checkString, parseBigStr, parseBigChars, hout]
    | none =>
      show Except.ok _ = _
      simp [DEBUG, check, checkString, parseBigStr, parseBigChars, hout,
        BigNum.isInteger]

/-- For a `BigNumber` input the check predicate coincides with constructor
success. -/
theorem check_big_iff (b : BigNum) :
    (b.isInteger && !b.isNegative && b.le MAX_VALUE) = true ↔
      ∃ u, mkU256 (Param.big b) = Except.ok u := by
  constructor
  · intro h
    simp only [Bool.and_eq_true, Bool.not_eq_true'] at h
    obtain ⟨⟨hI, hN⟩, hLE⟩ := h
    refine ⟨⟨b.toNat⟩, ?_⟩
    rw [mkU256_eq_ok_iff]
    simp only [toBigNumber]
    refine ⟨hI, hN, ?_, by trivial⟩
    cases b with
    | nan => simp [BigNum.isInteger] at hI
    | inf n => simp [BigNum.isInteger] at hI
    | negZero => simp [BigNum.isNegative] at hN
    | fin q =>
      have hden : q.den = 1 := by simpa [BigNum.isInteger] using hI
      have hq : ¬q < 0 := by simpa [BigNum.isNegative] using hN
      rw [le_fin_max] at hLE
      exact (fin_le_max_iff hden hq).mp (of_decide_eq_true hLE)
  · rintro ⟨u, hu⟩
    rw [mkU256_eq_ok_iff] at hu
    simp only [toBigNumber] at hu
    obtain ⟨hI, hN, hlt, -⟩ := hu
    cases b with
    | nan => simp [BigNum.isInteger] at hI
    | inf n => simp [BigNum.isInteger] at hI
    | negZero => simp [BigNum.isNegative] at hN
    | fin q =>
      have hden : q.den = 1 := by simpa [BigNum.isInteger] using hI
      have hq : ¬q < 0 := by simpa [BigNum.isNegative] using hN
      have hle : q ≤ ((2 ^ 256 - 1 : ℕ) : ℚ) := (fin_le_max_iff hden hq).mpr hlt
      have hLE2 : (BigNum.fin q).le MAX_VALUE = true := by
        rw [le_fin_max]
        exact decide_eq_true hle
      simp [BigNum.isInteger, BigNum.isNegative, hden, hq, hLE2]

/-- For a string input the check predicate coincides with constructor
success (both sides share the same parse). -/
theorem check_str_iff (s : String) :
    checkString s = true ↔ ∃ u, mkU256 (Param.str s) = Except.ok u :=
  check_big_iff (parseBigStr s)

/-- Constructor success on a native number input implies the check
predicate accepts it. -/
theorem check_num_sound (n : BigNum) :
    (∃ u, mkU256 (Param.num n) = Except.ok u) → check (Param.num n) = true := by
  rintro ⟨u, hu⟩
  rw [mkU256_eq_ok_iff] at hu
  simp only [toBigNumber] at hu
  obtain ⟨hI, hN, -, -⟩ := hu
  cases n with
  | nan => simp [BigNum.isInteger] at hI
  | inf m => simp [BigNum.isInteger] at hI
  | negZero => simp [BigNum.isNegative] at hN
  | fin q =>
    have hden : q.den = 1 := by simpa [BigNum.isInteger] using hI
    have hq : ¬q < 0 := by simpa [BigNum.isNegative] using hN
    simp [check, BigNum.jsIsInteger, BigNum.jsGe0, hden, le_of_not_lt hq]

/-- The check predicate on a native number is complete for values within
range: a non-negative integer number at most `2 ^ 256 - 1` constructs. -/
theorem check_num_complete {q : ℚ} (hden : q.den = 1) (hnn : 0 ≤ q)
    (hle : q ≤ ((2 ^ 256 - 1 : ℕ) : ℚ)) :
    ∃ u, mkU256 (Param.num (.fin q)) = Except.ok u := by
  have hq : ¬q < 0 := not_lt.mpr hnn
  refine ⟨⟨q.num.toNat⟩, ?_⟩
  rw [mkU256_eq_ok_iff]
  simp only [toBigNumber]
  exact ⟨by simp [BigNum.isInteger, hden], by simp [BigNum.isNegative, hq],
    (fin_le_max_iff hden hq).mp hle, rfl⟩

theorem isInteger_natCast (n : ℕ) :
    (BigNum.fin ((n : ℕ) : ℚ)).isInteger = true := by
  simp [BigNum.isInteger]

theorem isNegative_natCast (n : ℕ) :
    (BigNum.fin ((n : ℕ) : ℚ)).isNegative = false := by
  simp [BigNum.isNegative]

theorem toNat_natCast (n : ℕ) : (BigNum.fin ((n : ℕ) : ℚ)).toNat = n := by
  simp [BigNum.toNat]

/-! ## The encode side: the hex rendering decodes to the minimal big-endian
byte string, which settles where the round trip holds and where it fails -/

/-- Minimal big-endian base-256 byte list of a natural number (empty for 0). -/
def bytesOfNat (v : ℕ) : List ℕ :=
  (Nat.digits 256 v).reverse

theorem beVal_append_singleton (X : List ℕ) (d : ℕ) :
    beVal (X ++ [d]) = 256 * beVal X + d := by
  unfold beVal
  rw [List.foldl_append]
  rfl

theorem beVal_reverse (l : List ℕ) : beVal l.reverse = Nat.ofDigits 256 l := by
  induction l with
  | nil => rfl
  | cons d l ih =>
    rw [List.reverse_cons, beVal_append_singleton, ih, Nat.ofDigits_cons]
    ring

theorem beVal_bytesOfNat (v : ℕ) : beVal (bytesOfNat v) = v := by
  rw [bytesOfNat, beVal_reverse, Nat.ofDigits_digits]

theorem bytesOfNat_ne_nil {v : ℕ} (hv : v ≠ 0) : bytesOfNat v ≠ [] := by
  rw [bytesOfNat]
  simpa using Nat.digits_ne_nil_iff_ne_zero.mpr hv

theorem bytesOfNat_lt {v b : ℕ} (hb : b ∈ bytesOfNat v) : b < 256 := by
  rw [bytesOfNat, List.mem_reverse] at hb
  exact Nat.digits_lt_base (by norm_num) hb

theorem bytesOfNat_len_le {v : ℕ} (hv : v ≠ 0) (h : v < 2 ^ 256) :
    (bytesOfNat v).length ≤ 32 := by
  rw [bytesOfNat, List.length_reverse, Nat.digits_len 256 v (by norm_num) hv]
  have hlog := (Nat.lt_pow_iff_log_lt (b := 256) (by norm_num) hv).mp
    (show v < 256 ^ 32 by omega)
  omega

theorem hexCharVal_hexDigitChar :
    ∀ d : ℕ, d < 16 → hexCharVal (hexDigitChar d) = some d := by decide

theorem hexCharsToBytes_cons_cons (c1 c2 : Char) (rest : List Char)
    (x1 x2 : ℕ) (h1 : hexCharVal c1 = some x1) (h2 : hexCharVal c2 = some x2) :
    hexCharsToBytes (c1 :: c2 :: rest) = (16 * x1 + x2) :: hexCharsToBytes rest := by
  simp only [hexCharsToBytes, h1, h2]

theorem hexCharsToBytes_append_pair (a b : ℕ) (ha : a < 16) (hb : b < 16) :
    ∀ Y : List Char, Y.length % 2 = 0 →
      (∀ c ∈ Y, (hexCharVal c).isSome = true) →
      hexCharsToBytes (Y ++ [hexDigitChar a, hexDigitChar b]) =
        hexCharsToBytes Y ++ [16 * a + b]
  | [], _, _ => by
    rw [List.nil_append,
      hexCharsToBytes_cons_cons _ _ _ _ _ (hexCharVal_hexDigitChar a ha)
        (hexCharVal_hexDigitChar b hb)]
    rfl
  | [c], h, _ => by simp at h
  | c1 :: c2 :: rest, h, hall => by
    obtain ⟨x1, hx1⟩ := Option.isSome_iff_exists.mp (hall c1 (by simp))
    obtain ⟨x2, hx2⟩ := Option.isSome_iff_exists.mp (hall c2 (by simp))
    have hr : rest.length % 2 = 0 := by
      simp only [List.length_cons] at h
      omega
    have hrall : ∀ c ∈ rest, (hexCharVal c).isSome = true :=
      fun c hc => hall c (by simp [hc])
    rw [List.cons_append, List.cons_append,
      hexCharsToBytes_cons_cons _ _ _ _ _ hx1 hx2,
      hexCharsToBytes_cons_cons _ _ _ _ _ hx1 hx2,
      hexCharsToBytes_append_pair a b ha hb rest hr hrall,
      List.cons_append]

theorem padToEven_append_pair (X : List Char) (a b : Char) :
    padToEven (X ++ [a, b]) = padToEven X ++ [a, b] := by
  unfold padToEven
  by_cases h : X.length % 2 = 1
  · rw [if_pos (show (X ++ [a, b]).length % 2 = 1 by
      simp only [List.length_append, List.length_cons, List.length_nil]
      omega), if_pos h, List.cons_append]
  · rw [if_neg (show ¬(X ++ [a, b]).length % 2 = 1 by
      simp only [List.length_append, List.length_cons, List.length_nil]
      omega), if_neg h]

theorem padToEven_even (X : List Char) : (padToEven X).length % 2 = 0 := by
  unfold padToEven
  by_cases h : X.length % 2 = 1
  · rw [if_pos h]
    simp only [List.length_cons]
    omega
  · rw [if_neg h]
    omega

theorem padToEven_mem {X : List Char} {c : Char} (hc : c ∈ padToEven X) :
    c = '0' ∨ c ∈ X := by
  unfold padToEven at hc
  by_cases h : X.length % 2 = 1
  · rw [if_pos h] at hc
    simpa using hc
  · rw [if_neg h] at hc
    exact Or.inr hc

/-- The hex chars of a positive value all carry hex digit values. -/
theorem natHex_chars_isSome {v : ℕ} {c : Char}
    (hc : c ∈ padToEven ((natHex v).map hexDigitChar)) :
    (hexCharVal c).isSome = true := by
  rcases padToEven_mem hc with rfl | hc2
  · rfl
  · obtain ⟨d, hd, rfl⟩ := List.mem_map.mp hc2
    rw [hexCharVal_hexDigitChar d (natHex_digit_lt hd)]
    rfl

/-- Hex-decoding the even-padded hex rendering of a positive value yields its
minimal big-endian byte string. -/
theorem hexDecode_natHex (v : ℕ) (hv : v ≠ 0) :
    hexCharsToBytes (padToEven ((natHex v).map hexDigitChar)) = bytesOfNat v := by
  induction v using Nat.strong_induction_on with
  | _ v ih =>
    by_cases h256 : v < 256
    · by_cases h16 : v < 16
      · rw [natHex_small hv h16]
        show hexCharsToBytes (padToEven [hexDigitChar v]) = _
        rw [show padToEven [hexDigitChar v] = ['0', hexDigitChar v] from rfl,
          hexCharsToBytes_cons_cons '0' (hexDigitChar v) [] 0 v (by decide)
            (hexCharVal_hexDigitChar v h16)]
        rw [bytesOfNat, Nat.digits_of_lt 256 v hv (by omega)]
        show (16 * 0 + v) :: hexCharsToBytes [] = [v].reverse
        rw [show 16 * 0 + v = v from by omega, show hexCharsToBytes [] = [] from rfl]
        rfl
      · rw [natHex_byte (by omega) h256]
        show hexCharsToBytes
          (padToEven [hexDigitChar (v / 16), hexDigitChar (v % 16)]) = _
        rw [show padToEven [hexDigitChar (v / 16), hexDigitChar (v % 16)] =
            [hexDigitChar (v / 16), hexDigitChar (v % 16)] from by
              simp [padToEven],
          hexCharsToBytes_cons_cons _ _ _ (v / 16) (v % 16)
            (hexCharVal_hexDigitChar _ (by omega))
            (hexCharVal_hexDigitChar _ (by omega)),
          bytesOfNat, Nat.digits_of_lt 256 v hv h256]
        show [16 * (v / 16) + v % 16] = [v]
        rw [show 16 * (v / 16) + v % 16 = v by omega]
    · have hv16 : v / 256 ≠ 0 := by omega
      have hdig : natHex v = natHex (v / 256) ++ [v / 16 % 16, v % 16] := by
        rw [natHex_of_ne_zero hv,
          Nat.digits_def' (b := 16) (by norm_num) (by omega : 0 < v),
          Nat.digits_def' (b := 16) (by norm_num) (by omega : 0 < v / 16),
          Nat.div_div_eq_div_mul]
        rw [natHex_of_ne_zero (show v / (16 * 16) ≠ 0 by omega)]
        rw [List.reverse_cons, List.reverse_cons, List.append_assoc]
        norm_num
      rw [hdig, List.map_append,
        show List.map hexDigitChar [v / 16 % 16, v % 16] =
          [hexDigitChar (v / 16 % 16), hexDigitChar (v % 16)] from rfl,
        padToEven_append_pair,
        hexCharsToBytes_append_pair _ _ (by omega) (by omega) _
          (padToEven_even _) (fun c hc => natHex_chars_isSome hc),
        ih (v / 256) (by omega) hv16]
      rw [show 16 * (v / 16 % 16) + v % 16 = v % 256 by omega]
      rw [bytesOfNat, bytesOfNat,
        Nat.digits_def' (b := 256) (by norm_num) (by omega : 0 < v),
        List.reverse_cons]

theorem natHex_eq_single_zero {v : ℕ} (h : natHex v = [0]) : v = 0 := by
  by_contra hv
  rw [natHex_of_ne_zero hv] at h
  have hd : Nat.digits 16 v = [0] := by
    have h2 := congrArg List.reverse h
    simpa using h2
  have h3 := Nat.ofDigits_digits 16 v
  rw [hd] at h3
  simp [Nat.ofDigits_cons, Nat.ofDigits_nil] at h3
  exact hv h3.symm

theorem hexStrOfNat_ne_zero_str {v : ℕ} (hv : v ≠ 0) : hexStrOfNat v ≠ "0" := by
  intro h
  have hd : (natHex v).map hexDigitChar = ['0'] := congrArg String.data h
  rcases hx : natHex v with _ | ⟨d, rest⟩
  · exact natHex_ne_nil v hx
  · rw [hx] at hd
    simp only [List.map_cons, List.cons.injEq] at hd
    obtain ⟨hd1, hd2⟩ := hd
    have hrest : rest = [] := by
      rcases rest with _ | ⟨e, r2⟩
      · rfl
      · simp at hd2
    have hdlt : d < 16 := natHex_digit_lt (by rw [hx]; simp)
    have halpha := (hexDigitChar_facts d hdlt).1
    rw [hd1] at halpha
    have hd0 : d = 0 := by
      have h0 : alphaVal 16 '0' = some 0 := by decide
      rw [h0] at halpha
      exact (Option.some.injEq _ _).mp halpha.symm
    exact hv (natHex_eq_single_zero (by rw [hx, hrest, hd0]))

/-- For a positive value, `toEncodeObject` wraps the even-padded hex string,
whose rlp `toBuffer` is the minimal big-endian byte string of the value. -/
theorem toBuffer_toEncodeObject {v : ℕ} (hv : v ≠ 0) :
    toBuffer (toEncodeObject ⟨v⟩) = bytesOfNat v := by
  have henc : toEncodeObject ⟨v⟩ =
      (if (hexStrOfNat v).length % 2 = 0 then EncObj.str ("0x" ++ hexStrOfNat v)
       else EncObj.str ("0x0" ++ hexStrOfNat v)) := by
    show (if hexStrOfNat v = "0" then EncObj.num 0
      else if (hexStrOfNat v).length % 2 = 0 then EncObj.str ("0x" ++ hexStrOfNat v)
      else EncObj.str ("0x0" ++ hexStrOfNat v)) = _
    rw [if_neg (hexStrOfNat_ne_zero_str hv)]
  rw [henc]
  by_cases hpar : (hexStrOfNat v).length % 2 = 0
  · rw [if_pos hpar]
    show hexCharsToBytes (padToEven ((natHex v).map hexDigitChar)) = _
    exact hexDecode_natHex v hv
  · rw [if_neg hpar]
    show hexCharsToBytes (padToEven ('0' :: (natHex v).map hexDigitChar)) = _
    have hodd : ((natHex v).map hexDigitChar).length % 2 = 1 := by
      have hlen : (hexStrOfNat v).length = ((natHex v).map hexDigitChar).length := rfl
      omega
    rw [show padToEven ('0' :: (natHex v).map hexDigitChar) =
        padToEven ((natHex v).map hexDigitChar) from by
      unfold padToEven
      rw [if_neg (by simp only [List.length_cons]; omega), if_pos hodd]]
    exact hexDecode_natHex v hv

/-- The round trip holds at zero. -/
theorem rlpBytes_roundtrip_zero : fromBytes (rlpBytes ⟨0⟩) = Except.ok ⟨0⟩ := rfl

/-- The round trip holds for every value from `0x80` up to the maximum. -/
theorem rlpBytes_roundtrip_high {v : ℕ} (h128 : 128 ≤ v) (hlt : v < 2 ^ 256) :
    fromBytes (rlpBytes ⟨v⟩) = Except.ok ⟨v⟩ := by
  have hv : v ≠ 0 := by omega
  have hbuf : toBuffer (toEncodeObject ⟨v⟩) = bytesOfNat v := toBuffer_toEncodeObject hv
  have hall : ∀ b ∈ bytesOfNat v, b < 256 := fun b hb => bytesOfNat_lt hb
  have hne : bytesOfNat v ≠ [] := bytesOfNat_ne_nil hv
  have hlen : (bytesOfNat v).length ≤ 32 := bytesOfNat_len_le hv hlt
  have hbe : beVal (bytesOfNat v) = v := beVal_bytesOfNat v
  show fromBytes (rlpEncode (toEncodeObject ⟨v⟩)) = _
  unfold rlpEncode
  rw [hbuf]
  obtain ⟨b1, rest, hB⟩ : ∃ b1 rest, bytesOfNat v = b1 :: rest := by
    rcases hBB : bytesOfNat v with _ | ⟨x, r⟩
    · exact absurd hBB hne
    · exact ⟨x, r, rfl⟩
  rw [hB] at hall hbe hlen
  rw [hB]
  · rcases rest with _ | ⟨b2, rest2⟩
    · have hb1 : b1 = v := by
        simp [beVal] at hbe
        omega
      show fromBytes (if b1 < 128 then [b1] else encodeLength 1 128 ++ [b1]) = _
      rw [if_neg (by omega)]
      show fromBytes [129, b1] = _
      rw [fromBytes_ok 129 [b1] (by
          intro x hx
          simp only [List.mem_singleton] at hx
          exact hx ▸ hall b1 (List.mem_singleton.mpr rfl)) (by simp)
        (by norm_num) (by simp)]
      rw [show beVal [b1] = v from by simp [beVal]; omega]
    · show fromBytes (encodeLength (b1 :: b2 :: rest2).length 128 ++
        (b1 :: b2 :: rest2)) = _
      rw [show encodeLength (b1 :: b2 :: rest2).length 128 =
          [(b1 :: b2 :: rest2).length + 128] from by
        unfold encodeLength
        rw [if_pos (by omega)]]
      show fromBytes (((b1 :: b2 :: rest2).length + 128) :: (b1 :: b2 :: rest2)) = _
      rw [fromBytes_ok _ _ hall (by simp) (by push_cast; omega) hlen]
      rw [hbe]

/-- The round trip fails for every value from 1 to 127: the encoder emits
the bare byte, which `fromBytes` rejects. -/
theorem roundtrip_fails_small {v : ℕ} (h1 : 1 ≤ v) (h2 : v ≤ 127) :
    fromBytes (rlpBytes ⟨v⟩) = Except.error "Invalid RLP for U256" := by
  have hv : v ≠ 0 := by omega
  have hbuf := toBuffer_toEncodeObject hv
  have hB : bytesOfNat v = [v] := by
    rw [bytesOfNat, Nat.digits_of_lt 256 v hv (by omega)]
    rfl
  show fromBytes (rlpEncode (toEncodeObject ⟨v⟩)) = _
  unfold rlpEncode
  rw [hbuf, hB]
  show fromBytes (if v < 128 then [v] else encodeLength 1 128 ++ [v]) = _
  rw [if_pos (by omega)]
  simp only [fromBytes]
  rw [if_neg (by omega), if_pos (by omega)]

/-! ## Claim theorems -/

/-- C1 (code bug): the spec's round trip `decode(encode(v)) = v` fails on the
code for every `v` in `1 … 127`: rlp encodes a one-byte minimal
representation below `0x80` as that bare byte with no length prefix, while
`fromBytes` unconditionally treats the first byte as a `0x80`-based length
header and rejects the buffer.  Also evaluated at `v = 1` and at `v = 16`,
the spec's own worked example (which claims `encode(16) = [0x81, 0x10]`
where the code produces `[0x10]`).  The round trip does hold everywhere
else: see `rlpBytes_roundtrip_zero` and `rlpBytes_roundtrip_high`. -/
theorem C1_roundtrip_fails_below_0x80 :
    (∀ v : ℕ, 1 ≤ v → v ≤ 127 →
      fromBytes (rlpBytes ⟨v⟩) = Except.error "Invalid RLP for U256") ∧
    rlpBytes ⟨1⟩ = [0x01] ∧
    rlpBytes ⟨16⟩ = [0x10] ∧
    fromBytes (rlpBytes ⟨16⟩) = Except.error "Invalid RLP for U256" := by
  have h16 : rlpBytes ⟨16⟩ = [16] := by
    have henc : toEncodeObject ⟨16⟩ = EncObj.str "0x10" := by
      unfold toEncodeObject hexStrOfNat
      rw [natHex_byte (by norm_num) (by norm_num)]
      rfl
    show rlpEncode (toEncodeObject ⟨16⟩) = [16]
    rw [henc]
    decide
  refine ⟨fun v hv1 hv2 => roundtrip_fails_small hv1 hv2, rlpBytes_one, h16, ?_⟩
  rw [h16]
  exact rfl

theorem C1_roundtrip_fails_witness :
    ((1 : ℕ) ≤ 1 ∧ (1 : ℕ) ≤ 127) ∧
    fromBytes (rlpBytes ⟨1⟩) = Except.error "Invalid RLP for U256" :=
  ⟨⟨by decide, by decide⟩,
    C1_roundtrip_fails_below_0x80.1 1 (by decide) (by decide)⟩

/-- C2 counterexample: encoding zero yields exactly the generic empty-string
encoding `[0x80]` that the claim says it must not equal. -/
theorem C2_encode_zero_counterexample : rlpBytes ⟨0⟩ = [0x80] :=
  rlpBytes_zero

/-- C2 (amended): `toEncodeObject` maps zero to the JS number `0`, whose rlp
encoding is the empty byte string framed as `[0x80]` (the in-code workaround
avoids the `[0x00]` that encoding a hex string for zero would produce);
`fromBytes` decodes `[0x80]` to zero, and rejects the single-payload-byte
framing `[0x00]`, whose first byte is not a valid length header. -/
theorem C2_encode_zero_amended :
    rlpBytes ⟨0⟩ = [0x80] ∧ fromBytes [0x80] = Except.ok ⟨0⟩ ∧
    fromBytes [0x00] = Except.error "Invalid RLP for U256" :=
  ⟨rlpBytes_zero, rfl, rfl⟩

/-- C3 counterexample: the native-number input `2 ^ 256` (an exactly
representable IEEE double) passes `check`, which for numbers tests only
integrality and non-negativity, yet the constructor rejects it as out of
range, so `check` is not a complete validity predicate. -/
theorem C3_check_counterexample :
    check (Param.num (.fin ((2 ^ 256 : ℕ) : ℚ))) = true ∧
    mkU256 (Param.num (.fin ((2 ^ 256 : ℕ) : ℚ))) =
      Except.error "Given value is out of range for U256" := by
  constructor
  · simp [check, BigNum.jsIsInteger, BigNum.jsGe0]
  · refine mkU256_err_range _ (isInteger_natCast _) (isNegative_natCast _) ?_
    rw [show toBigNumber (Param.num (.fin ((2 ^ 256 : ℕ) : ℚ))) =
      BigNum.fin ((2 ^ 256 : ℕ) : ℚ) from rfl, toNat_natCast]

/-- C3 (amended): `check` agrees with constructor success for `U256`,
`BigNumber` and string inputs and is sound for native numbers; for native
numbers it is complete only within range — a non-negative integer number at
most `2 ^ 256 − 1` constructs, while (per the counterexample) integer
numbers above the bound pass `check` but fail the constructor. -/
theorem C3_check_amended :
    (∀ u : U256, check (Param.u256 u) = true) ∧
    (∀ b : BigNum,
      check (Param.big b) = true ↔ ∃ u, mkU256 (Param.big b) = Except.ok u) ∧
    (∀ s : String,
      check (Param.str s) = true ↔ ∃ u, mkU256 (Param.str s) = Except.ok u) ∧
    (∀ n : BigNum,
      (∃ u, mkU256 (Param.num n) = Except.ok u) → check (Param.num n) = true) ∧
    (∀ q : ℚ, q.den = 1 → 0 ≤ q → q ≤ ((2 ^ 256 - 1 : ℕ) : ℚ) →
      ∃ u, mkU256 (Param.num (.fin q)) = Except.ok u) :=
  ⟨fun _ => rfl, fun b => check_big_iff b, fun s => check_str_iff s,
    check_num_sound, fun _ => check_num_complete⟩

theorem C3_check_amended_witness :
    (((5 : ℕ) : ℚ).den = 1 ∧ (0 : ℚ) ≤ ((5 : ℕ) : ℚ) ∧
      ((5 : ℕ) : ℚ) ≤ ((2 ^ 256 - 1 : ℕ) : ℚ)) ∧
    ∃ u, mkU256 (Param.num (.fin ((5 : ℕ) : ℚ))) = Except.ok u :=
  ⟨⟨by norm_num, by norm_num, by norm_num⟩,
    C3_check_amended.2.2.2.2 ((5 : ℕ) : ℚ) (by norm_num) (by norm_num)
      (by norm_num)⟩

/-- C4 counterexample: the buffer `[0x81, 0x00]` declares payload length 1
with a payload consisting of one extraneous zero byte, and `fromBytes`
accepts it (returning zero) instead of rejecting it. -/
theorem C4_leading_zero_counterexample :
    fromBytes [0x81, 0x00] = Except.ok ⟨0⟩ := rfl

/-- C4 (amended): `fromBytes` enforces no minimality at all — every buffer
that passes the two length checks is accepted even when its payload begins
with a `0x00` byte, and the payload is decoded by numeric value. -/
theorem C4_leading_zero_amended (first : ℕ) (rest : List ℕ)
    (h256 : ∀ b ∈ rest, b < 256)
    (hlen : (((0 :: rest) : List ℕ).length : ℤ) = (first : ℤ) - 128)
    (h32 : ((0 :: rest) : List ℕ).length ≤ 32) :
    fromBytes (first :: 0 :: rest) = Except.ok ⟨beVal (0 :: rest)⟩ := by
  refine fromBytes_ok first (0 :: rest) ?_ (by simp) hlen h32
  intro b hb
  rcases List.mem_cons.mp hb with rfl | hb2
  · omega
  · exact h256 b hb2

theorem C4_leading_zero_amended_witness :
    ((∀ b ∈ ([] : List ℕ), b < 256) ∧
      ((([0] : List ℕ)).length : ℤ) = ((129 : ℕ) : ℤ) - 128 ∧
      (([0] : List ℕ)).length ≤ 32) ∧
    fromBytes [129, 0] = Except.ok ⟨beVal [0]⟩ :=
  ⟨⟨by simp, by decide, by decide⟩,
    C4_leading_zero_amended 129 [] (by simp) (by decide) (by decide)⟩

/-- C5: the constructor fails exactly when the parsed value is negative (in
bignumber.js's signed sense, which includes `-0`), non-integral (including
`NaN` and infinities), or exceeds `2 ^ 256 − 1`; on success the stored value
is the parsed value.  The spec's required failures at `-1`, at the
non-integer `3/2`, and at `2 ^ 256`, and the success at `2 ^ 256 − 1`, are
instantiated. -/
theorem C5_ctor_validation :
    (∀ v u, mkU256 v = Except.ok u → u.value = (toBigNumber v).toNat) ∧
    (∀ v : Param, (∃ u, mkU256 v = Except.ok u) ↔
      ((toBigNumber v).isInteger = true ∧ (toBigNumber v).isNegative = false ∧
        (toBigNumber v).toNat ≤ 2 ^ 256 - 1)) ∧
    mkU256 (Param.num (.fin (-1))) =
      Except.error "U256 must be a positive integer" ∧
    mkU256 (Param.num (.fin (mkRat 3 2))) =
      Except.error "U256 must be a positive integer" ∧
    mkU256 (Param.big (.fin ((2 ^ 256 : ℕ) : ℚ))) =
      Except.error "Given value is out of range for U256" ∧
    mkU256 (Param.big (.fin ((2 ^ 256 - 1 : ℕ) : ℚ))) =
      Except.ok ⟨2 ^ 256 - 1⟩ := by
  refine ⟨?_, ?_, ?_, ?_, ?_, ?_⟩
  · intro v u h
    rw [mkU256_eq_ok_iff] at h
    rw [h.2.2.2]
  · intro v
    constructor
    · rintro ⟨u, hu⟩
      rw [mkU256_eq_ok_iff] at hu
      exact ⟨hu.1, hu.2.1, by omega⟩
    · rintro ⟨hI, hN, hle⟩
      exact ⟨⟨(toBigNumber v).toNat⟩,
        (mkU256_eq_ok_iff v _).mpr ⟨hI, hN, by omega, rfl⟩⟩
  · exact mkU256_err_nonint _ (by decide)
  · exact mkU256_err_nonint _ (by decide)
  · refine mkU256_err_range _ (isInteger_natCast _) (isNegative_natCast _) ?_
    rw [show toBigNumber (Param.big (.fin ((2 ^ 256 : ℕ) : ℚ))) =
      BigNum.fin ((2 ^ 256 : ℕ) : ℚ) from rfl, toNat_natCast]
  · rw [mkU256_eq_ok_iff]
    rw [show toBigNumber (Param.big (.fin ((2 ^ 256 - 1 : ℕ) : ℚ))) =
      BigNum.fin ((2 ^ 256 - 1 : ℕ) : ℚ) from rfl, toNat_natCast]
    exact ⟨isInteger_natCast _, isNegative_natCast _, by omega, rfl⟩

theorem C5_ctor_validation_witness :
    ∃ u, mkU256 (Param.big (.fin ((7 : ℕ) : ℚ))) = Except.ok u :=
  (C5_ctor_validation.2.1 (Param.big (.fin ((7 : ℕ) : ℚ)))).mpr
    ⟨by decide, by decide, by decide⟩

/-- C6: the two length checks of `fromBytes` — the buffer is rejected when
the declared length (first byte minus `0x80`, a JS subtraction that can go
negative, or `NaN` for an empty buffer, modelled as the mismatch error)
exceeds 32, rejected when the payload byte count differs from the declared
length, and a value is returned only when both checks pass. -/
theorem C6_decode_length_checks :
    fromBytes [] = Except.error "Invalid RLP for U256" ∧
    (∀ (first : ℕ) (bytes : List ℕ), 32 < (first : ℤ) - 128 →
      fromBytes (first :: bytes) =
        Except.error "Buffer for U256 must be less than or equal to 32") ∧
    (∀ (first : ℕ) (bytes : List ℕ), (first : ℤ) - 128 ≤ 32 →
      (bytes.length : ℤ) ≠ (first : ℤ) - 128 →
      fromBytes (first :: bytes) = Except.error "Invalid RLP for U256") ∧
    (∀ (buffer : List ℕ) (u : U256), fromBytes buffer = Except.ok u →
      ∃ (first : ℕ) (bytes : List ℕ), buffer = first :: bytes ∧
        (first : ℤ) - 128 ≤ 32 ∧ (bytes.length : ℤ) = (first : ℤ) - 128) := by
  refine ⟨rfl, ?_, ?_, ?_⟩
  · intro first bytes h
    simp only [fromBytes]
    rw [if_pos (by omega)]
  · intro first bytes h1 h2
    simp only [fromBytes]
    rw [if_neg (by omega), if_pos h2]
  · intro buffer u h
    match buffer with
    | [] => simp [fromBytes] at h
    | first :: bytes =>
      refine ⟨first, bytes, rfl, ?_⟩
      by_cases hc1 : 32 < (first : ℤ) - 128
      · exfalso
        simp only [fromBytes] at h
        rw [if_pos (by omega)] at h
        simp at h
      · by_cases hc2 : (bytes.length : ℤ) = (first : ℤ) - 128
        · exact ⟨by omega, hc2⟩
        · exfalso
          simp only [fromBytes] at h
          rw [if_neg (by omega), if_pos (by omega)] at h
          simp at h

theorem C6_decode_length_checks_witness :
    (32 < ((0xC0 : ℕ) : ℤ) - 128 ∧
      fromBytes [0xC0] =
        Except.error "Buffer for U256 must be less than or equal to 32") ∧
    (((0x85 : ℕ) : ℤ) - 128 ≤ 32 ∧
      ((([] : List ℕ)).length : ℤ) ≠ ((0x85 : ℕ) : ℤ) - 128 ∧
      fromBytes [0x85] = Except.error "Invalid RLP for U256") :=
  ⟨⟨by decide, C6_decode_length_checks.2.1 0xC0 [] (by decide)⟩,
    ⟨by decide, by decide,
      C6_decode_length_checks.2.2.1 0x85 [] (by decide) (by decide)⟩⟩

/-- C7: `check` never throws — its exception-explicit version returns `ok`
with exactly the boolean `check` computes, for every input of every accepted
shape (the lone potential throw site, the `DEBUG`-guarded Not-a-number
branch inside `new BigNumber(string)`, is inactive in the default
configuration), and the spec's malformed strings all yield `false`. -/
theorem C7_check_never_throws :
    (∀ p : Param, checkE p = Except.ok (check p)) ∧
    check (Param.str "abc") = false ∧
    check (Param.str "-5") = false ∧
    check (Param.str "1.5") = false :=
  ⟨checkE_eq_ok, by decide, by decide, by decide⟩

/-- C8 counterexample: the claim's aside that "this core's own encoder never
emits that framing for zero" is false — `rlpBytes` on zero emits exactly the
empty-payload framing `[0x80]`, which `fromBytes` then decodes back to
zero. -/
theorem C8_empty_framing_counterexample :
    rlpBytes ⟨0⟩ = [0x80] ∧ fromBytes [0x80] = Except.ok ⟨0⟩ :=
  ⟨rlpBytes_zero, rfl⟩

/-- C8 (amended): the buffer `[0x80]` (declared length 0) decodes to a
`U256` holding 0 — and this is precisely the framing the encoder emits for
zero; for a declared length of at least 1 that passes the length checks, the
payload bytes are concatenated as two-hex-digit groups and parsed base-16,
i.e. the result holds the big-endian payload value. -/
theorem C8_decode_amended :
    fromBytes [0x80] = Except.ok ⟨0⟩ ∧
    rlpBytes ⟨0⟩ = [0x80] ∧
    (∀ (first : ℕ) (bytes : List ℕ), (∀ b ∈ bytes, b < 256) → bytes ≠ [] →
      (bytes.length : ℤ) = (first : ℤ) - 128 → bytes.length ≤ 32 →
      fromBytes (first :: bytes) = Except.ok ⟨beVal bytes⟩) :=
  ⟨rfl, rlpBytes_zero, fromBytes_ok⟩

theorem C8_decode_amended_witness :
    ((∀ b ∈ ([16] : List ℕ), b < 256) ∧ ([16] : List ℕ) ≠ [] ∧
      ((([16] : List ℕ)).length : ℤ) = ((0x81 : ℕ) : ℤ) - 128 ∧
      (([16] : List ℕ)).length ≤ 32) ∧
    fromBytes [0x81, 0x10] = Except.ok ⟨beVal [16]⟩ :=
  ⟨⟨by decide, by decide, by decide, by decide⟩,
    C8_decode_amended.2.2 0x81 [16] (by decide) (by decide) (by decide)
      (by decide)⟩

/-- C9: every `U256` any public operation returns in range: instances built
by the constructor, by `fromBytes`, and by `increase` satisfy
`value ≤ 2 ^ 256 − 1` unconditionally (the lower bound `0 ≤ value` is
carried by the ℕ-valued model, which only ever stores the non-negative
parse); `ensure` either passes its argument through unchanged or routes it
through the constructor, so it preserves the invariant. -/
theorem C9_range_invariant :
    (∀ v u, mkU256 v = Except.ok u → u.value ≤ 2 ^ 256 - 1) ∧
    (∀ (buffer : List ℕ) (u : U256),
      fromBytes buffer = Except.ok u → u.value ≤ 2 ^ 256 - 1) ∧
    (∀ u v, increase u = Except.ok v → v.value ≤ 2 ^ 256 - 1) ∧
    (∀ p u, ensure p = Except.ok u →
      (∀ w, p = Param.u256 w → w.value ≤ 2 ^ 256 - 1) →
      u.value ≤ 2 ^ 256 - 1) := by
  have hmk : ∀ v u, mkU256 v = Except.ok u → u.value ≤ 2 ^ 256 - 1 := by
    intro v u h
    rw [mkU256_eq_ok_iff] at h
    obtain ⟨-, -, hlt, rfl⟩ := h
    show (toBigNumber v).toNat ≤ 2 ^ 256 - 1
    omega
  refine ⟨hmk, ?_, ?_, ?_⟩
  · intro buffer u h
    match buffer with
    | [] => simp [fromBytes] at h
    | first :: bytes =>
      simp only [fromBytes] at h
      split_ifs at h <;> first
        | exact Except.noConfusion h
        | exact hmk _ _ h
  · intro u v h
    exact hmk _ _ h
  · intro p u h hw
    cases p with
    | u256 w =>
      have he : w = u := by simpa [ensure] using h
      exact he ▸ hw w rfl
    | str s => exact hmk _ _ h
    | num n => exact hmk _ _ h
    | big b => exact hmk _ _ h

theorem C9_range_invariant_witness :
    fromBytes [0x80] = Except.ok ⟨0⟩ ∧ ((⟨0⟩ : U256).value ≤ 2 ^ 256 - 1) :=
  ⟨rfl, C9_range_invariant.2.1 [0x80] ⟨0⟩ rfl⟩

/-- C10: `increase` revalidates `value + 1` through the constructor: on an
instance holding the maximum `2 ^ 256 − 1` it throws the range error rather
than wrapping to 0, and on any instance holding `v < 2 ^ 256 − 1` it returns
a new instance holding `v + 1` (instances are immutable values, so the
original is unchanged by construction). -/
theorem C10_increase (u : U256) :
    (u.value = 2 ^ 256 - 1 →
      increase u = Except.error "Given value is out of range for U256") ∧
    (u.value < 2 ^ 256 - 1 → increase u = Except.ok ⟨u.value + 1⟩) := by
  constructor
  · intro hmax
    show mkU256 (Param.big (.fin ((u.value + 1 : ℕ) : ℚ))) = _
    refine mkU256_err_range _ (isInteger_natCast _) (isNegative_natCast _) ?_
    rw [show toBigNumber (Param.big (.fin ((u.value + 1 : ℕ) : ℚ))) =
      BigNum.fin ((u.value + 1 : ℕ) : ℚ) from rfl, toNat_natCast]
    omega
  · intro hlt
    show mkU256 (Param.big (.fin ((u.value + 1 : ℕ) : ℚ))) = _
    rw [mkU256_eq_ok_iff]
    rw [show toBigNumber (Param.big (.fin ((u.value + 1 : ℕ) : ℚ))) =
      BigNum.fin ((u.value + 1 : ℕ) : ℚ) from rfl, toNat_natCast]
    exact ⟨isInteger_natCast _, isNegative_natCast _, by omega, rfl⟩

theorem C10_increase_witness :
    ((⟨2 ^ 256 - 1⟩ : U256).value = 2 ^ 256 - 1 ∧
      increase ⟨2 ^ 256 - 1⟩ =
        Except.error "Given value is out of range for U256") ∧
    ((⟨5⟩ : U256).value < 2 ^ 256 - 1 ∧ increase ⟨5⟩ = Except.ok ⟨6⟩) :=
  ⟨⟨rfl, (C10_increase ⟨2 ^ 256 - 1⟩).1 rfl⟩,
    ⟨by decide, (C10_increase ⟨5⟩).2 (by decide)⟩⟩
